import Mathlib

/-!
Shallow embedding of the `ringbuffer` package and of the sequencer loop
`WriteItems` of the pgnotifier sketch (repository hblanks/sketches).

The Go code protects all buffer state with one lock tied to a condition
variable.  A `Read` that finds `start == rb.end` calls `Wait()`, which
releases the lock and reacquires it after a `Write` or `Reset` broadcast;
the buffer state it then observes is whatever those intervening mutations
produced.  The embedding makes that explicit: `Read` takes the state `rb`
seen at call time and the state `rbPost` seen after a wake-up (used only
on the blocking branch).  The single `ctx.Err()` check of the Go code is
the boolean `ctxErr`.

Go's `%` on int64 truncates toward zero, which `Int.tmod` matches; buffer
indexing uses `(off.tmod size).toNat`, which agrees with Go for the
non-negative offsets every reachable state uses.  Go's `nil` item pointers
are `Option Item` with `none` for nil.  `Read` is fallible in one more
way: its `make([]*Item, 0, end-start)` panics when the capacity is
negative, so `Read` returns `Option ReadResult`, with `none` for that
run-time panic (the function never returns in Go).
-/

/-- Item mirrors `type Item struct { Id int64 }`. -/
structure Item where
  Id : Int
deriving DecidableEq

/-- RingBuffer mirrors the Go struct: backing slice `buffer`, its length
`size`, and the virtual window `[start, end)`.  Go's field `end` is spelled
`end_` because `end` is a Lean keyword. -/
structure RingBuffer where
  buffer : List (Option Item)
  size : Int
  start : Int
  end_ : Int
deriving DecidableEq

/-- NewRingBuffer mirrors `NewRingBuffer(size int, start int64)`: a slice of
`size` nil items and `start = end = start`. -/
def NewRingBuffer (size : Nat) (start : Int) : RingBuffer :=
  { buffer := List.replicate size none
    size := (size : Int)
    start := start
    end_ := start }

/-- Write mirrors `(rb *RingBuffer) Write(item *Item)`: store at
`end % size`, advance `start` when the window already held `size` items,
then advance `end`. -/
def RingBuffer.Write (rb : RingBuffer) (item : Item) : RingBuffer :=
  let bufOffset := rb.end_.tmod rb.size
  { rb with
    buffer := rb.buffer.set bufOffset.toNat (some item)
    start := if rb.end_ - rb.start = rb.size then rb.start + 1 else rb.start
    end_ := rb.end_ + 1 }

/-- Reset mirrors `(rb *RingBuffer) Reset(start int64)`: both offsets jump
to `start`; the backing slice is left untouched. -/
def RingBuffer.Reset (rb : RingBuffer) (start : Int) : RingBuffer :=
  { rb with start := start, end_ := start }

/-- The two error values of the package plus the context error that
`Read` can surface. -/
inductive RBError where
  | ErrBeforeBuffer
  | ErrAfterBuffer
  | CtxCancelled
deriving DecidableEq

/-- Outcome of `endOffset`: an immediate error, an immediate end offset, or
an end offset obtained after `cond.Wait()` returned (the blocking branch). -/
inductive EndOffsetResult where
  | immErr (e : RBError)
  | immediate (endv : Int)
  | waited (endv : Int)
deriving DecidableEq

/-- endOffset mirrors `(rb *RingBuffer) endOffset(start int64)`.  The Go
switch: `start < rb.start` errors; `start < rb.end` returns `rb.end`;
`start == rb.end` waits and returns the then-current `rb.end`, which is
`rbPost.end_` here; `start >= rb.end` errors. -/
def RingBuffer.endOffset (rb rbPost : RingBuffer) (start : Int) : EndOffsetResult :=
  if start < rb.start then .immErr .ErrBeforeBuffer
  else if start < rb.end_ then .immediate rb.end_
  else if start = rb.end_ then .waited rbPost.end_
  else .immErr .ErrAfterBuffer

/-- True exactly when `endOffset` takes the `start == rb.end` branch and
calls `cond.Wait()`, i.e. when `Read` blocks. -/
def RingBuffer.blocksOn (rb : RingBuffer) (start : Int) : Bool :=
  if start < rb.start then false
  else if start < rb.end_ then false
  else if start = rb.end_ then true
  else false

/-- What `Read` returns: the next offset to read from, the item slice, and
the error, mirroring `(int64, []*Item, error)`. -/
structure ReadResult where
  next : Int
  items : List (Option Item)
  error : Option RBError
deriving DecidableEq

/-- One slot access `rb.buffer[start % rb.size]` of the Go read loop. -/
def RingBuffer.slot (rb : RingBuffer) (off : Int) : Option Item :=
  rb.buffer.getD (off.tmod rb.size).toNat none

/-- The loop `for ; start < end; start++ { items = append(items,
rb.buffer[start%rb.size]) }`, unrolled on its iteration count
`(end - start).toNat`; returns the final `start` and the items slice. -/
def readLoopAux (rb : RingBuffer) : Nat → Int → List (Option Item) → Int × List (Option Item)
  | 0, start, items => (start, items)
  | n + 1, start, items => readLoopAux rb n (start + 1) (items ++ [rb.slot start])

/-- The item-collecting tail of `Read`, from `items := make(...)` to the
final `return start, items, nil`. -/
def readLoop (rb : RingBuffer) (start endv : Int) : Int × List (Option Item) :=
  readLoopAux rb (endv - start).toNat start []

/-- Read mirrors `(rb *RingBuffer) Read(ctx, start)`: ask `endOffset`,
return `start` with the error if it failed, return `start` with `ctx.Err()`
if the context is done, else allocate `items := make([]*Item, 0, end-start)`
and copy out `[start, end)`.  The `make` call panics at run time when its
capacity `end - start` is negative — reachable only on the waited branch,
when a wake-up left `end` below `start` — and the function never returns;
that panic is `none`.  Go runs the one `make` line on both non-error
branches, so the capacity test is repeated on both here.  On the waited
branch the slots are read from the post-wake state, since `Wait()` released
the lock. -/
def RingBuffer.Read (rb rbPost : RingBuffer) (ctxErr : Bool) (start : Int) : Option ReadResult :=
  match rb.endOffset rbPost start with
  | .immErr e => some ⟨start, [], some e⟩
  | .immediate endv =>
      if ctxErr then some ⟨start, [], some .CtxCancelled⟩
      else if endv - start < 0 then none
      else
        let r := readLoop rb start endv
        some ⟨r.1, r.2, none⟩
  | .waited endv =>
      if ctxErr then some ⟨start, [], some .CtxCancelled⟩
      else if endv - start < 0 then none
      else
        let r := readLoop rbPost start endv
        some ⟨r.1, r.2, none⟩

/-- A buffer mutation: the two operations that change window state. -/
inductive Op where
  | write (item : Item)
  | reset (start : Int)

/-- Apply one mutation. -/
def applyOp (rb : RingBuffer) : Op → RingBuffer
  | .write item => rb.Write item
  | .reset start => rb.Reset start

/-- Apply a sequence of mutations in order. -/
def applyOps (rb : RingBuffer) (ops : List Op) : RingBuffer :=
  ops.foldl applyOp rb

/-- State of the `WriteItems` loop of pgnotifier: `lastId` (initialized to
-1 in the Go code), the buffer, and a log of the arguments of every
`Reset` call it made, in order. -/
structure SeqState where
  lastId : Int
  rb : RingBuffer
  resets : List Int
deriving DecidableEq

/-- One iteration of `WriteItems` on a successfully received item:
`item.Id == lastId+1` writes; anything else resets to `item.Id` and then
writes; both set `lastId = item.Id`. -/
def writeItemsStep (s : SeqState) (item : Item) : SeqState :=
  if item.Id = s.lastId + 1 then
    { s with rb := s.rb.Write item, lastId := item.Id }
  else
    { s with
      rb := (s.rb.Reset item.Id).Write item
      lastId := item.Id
      resets := s.resets ++ [item.Id] }

/-- Run `WriteItems` over a finite stream of received items. -/
def writeItems (s : SeqState) (items : List Item) : SeqState :=
  items.foldl writeItemsStep s

/-- The `WriteItems` loop starts with `lastId = -1` and an empty reset log. -/
def initSeqState (rb : RingBuffer) : SeqState :=
  { lastId := -1, rb := rb, resets := [] }

/-- The window invariant of the spec, plus non-negativity of the capacity
(true from construction and preserved by every operation). -/
def WindowInv (rb : RingBuffer) : Prop :=
  rb.start ≤ rb.end_ ∧ rb.end_ - rb.start ≤ rb.size ∧ 0 ≤ rb.size

lemma windowInv_applyOp (rb : RingBuffer) (op : Op) (h : WindowInv rb) :
    WindowInv (applyOp rb op) := by
  obtain ⟨h1, h2, h3⟩ := h
  cases op with
  | write item =>
      unfold applyOp RingBuffer.Write WindowInv
      dsimp only
      by_cases hc : rb.end_ - rb.start = rb.size
      · rw [if_pos hc]; refine ⟨by omega, by omega, h3⟩
      · rw [if_neg hc]; refine ⟨by omega, by omega, h3⟩
  | reset s =>
      unfold applyOp RingBuffer.Reset WindowInv
      dsimp only
      exact ⟨le_refl s, by omega, h3⟩

lemma applyOp_size (rb : RingBuffer) (op : Op) : (applyOp rb op).size = rb.size := by
  cases op <;> rfl

lemma windowInv_applyOps (ops : List Op) : ∀ rb : RingBuffer, WindowInv rb →
    WindowInv (applyOps rb ops) := by
  induction ops with
  | nil => intro rb h; exact h
  | cons op ops ih =>
      intro rb h
      exact ih (applyOp rb op) (windowInv_applyOp rb op h)

lemma applyOps_size (ops : List Op) : ∀ rb : RingBuffer, (applyOps rb ops).size = rb.size := by
  induction ops with
  | nil => intro rb; rfl
  | cons op ops ih =>
      intro rb
      have := ih (applyOp rb op)
      simpa [applyOps, applyOp_size] using this

lemma readLoopAux_fst (rb : RingBuffer) (n : Nat) : ∀ (start : Int) (items : List (Option Item)),
    (readLoopAux rb n start items).1 = start + (n : Int) := by
  induction n with
  | zero => intro start items; simp [readLoopAux]
  | succ n ih =>
      intro start items
      rw [readLoopAux, ih]
      push_cast
      ring

lemma readLoopAux_snd (rb : RingBuffer) (n : Nat) : ∀ (start : Int) (acc : List (Option Item)),
    (readLoopAux rb n start acc).2 =
      acc ++ (List.range n).map (fun k : Nat => rb.slot (start + (k : Int))) := by
  induction n with
  | zero => intro start acc; simp [readLoopAux]
  | succ n ih =>
      intro start acc
      rw [readLoopAux, ih, List.range_succ_eq_map, List.map_cons, List.map_map,
        List.append_assoc, List.singleton_append]
      congr 1
      congr 1
      · rw [Int.Nat.cast_ofNat_Int, add_zero]
      · apply List.map_congr_left
        intro k _
        simp only [Function.comp_apply]
        congr 1
        push_cast
        ring

lemma readLoop_fst (rb : RingBuffer) (start endv : Int) :
    (readLoop rb start endv).1 = start + ((endv - start).toNat : Int) :=
  readLoopAux_fst rb _ start []

lemma readLoop_snd (rb : RingBuffer) (start endv : Int) :
    (readLoop rb start endv).2 =
      (List.range (endv - start).toNat).map (fun k : Nat => rb.slot (start + (k : Int))) := by
  unfold readLoop
  rw [readLoopAux_snd]
  simp

/-- Claim C7: for every buffer created by `NewRingBuffer` and every sequence
of `Write` and `Reset` operations, the window invariant `start <= end` and
`end - start <= N` (the capacity) holds afterwards; since the sequence of
operations is arbitrary, it holds after each operation of any run. -/
theorem window_invariant_preserved (n : Nat) (s : Int) (ops : List Op) :
    (applyOps (NewRingBuffer n s) ops).start ≤ (applyOps (NewRingBuffer n s) ops).end_ ∧
    (applyOps (NewRingBuffer n s) ops).end_ - (applyOps (NewRingBuffer n s) ops).start ≤ (n : Int) := by
  have hinv : WindowInv (applyOps (NewRingBuffer n s) ops) := by
    apply windowInv_applyOps
    refine ⟨le_refl s, by simp [NewRingBuffer], by simp [NewRingBuffer]⟩
  have hsz : (applyOps (NewRingBuffer n s) ops).size = (n : Int) :=
    applyOps_size ops (NewRingBuffer n s)
  obtain ⟨h1, h2, _⟩ := hinv
  exact ⟨h1, by omega⟩

/-- Claim C8: whenever `Read` returns (does not panic) and its result
carries no error, in any states (so in particular in every reachable one,
including a post-wake state produced by a `Reset` below the requested
offset), the returned next offset is at least the requested start. -/
theorem next_offset_ge_requested_on_success (rb rbPost : RingBuffer) (ctxErr : Bool)
    (start : Int) (r : ReadResult) (h : rb.Read rbPost ctxErr start = some r)
    (_he : r.error = none) :
    start ≤ r.next := by
  unfold RingBuffer.Read at h
  cases he2 : rb.endOffset rbPost start with
  | immErr e =>
      rw [he2] at h
      cases Option.some_inj.mp h
      exact le_refl start
  | immediate endv =>
      rw [he2] at h
      dsimp only at h
      by_cases hc : ctxErr
      · rw [if_pos hc] at h
        cases Option.some_inj.mp h
        exact le_refl start
      · rw [if_neg hc] at h
        by_cases hn : endv - start < 0
        · rw [if_pos hn] at h
          exact absurd h (by simp)
        · rw [if_neg hn] at h
          cases Option.some_inj.mp h
          show start ≤ (readLoop rb start endv).1
          rw [readLoop_fst]
          omega
  | waited endv =>
      rw [he2] at h
      dsimp only at h
      by_cases hc : ctxErr
      · rw [if_pos hc] at h
        cases Option.some_inj.mp h
        exact le_refl start
      · rw [if_neg hc] at h
        by_cases hn : endv - start < 0
        · rw [if_pos hn] at h
          exact absurd h (by simp)
        · rw [if_neg hn] at h
          cases Option.some_inj.mp h
          show start ≤ (readLoop rbPost start endv).1
          rw [readLoop_fst]
          omega

/-- Witness for C8 at a concrete input: a one-slot-filled buffer of size 2,
`Read(0)` returns `(1, [item 0], no error)` and its next offset `1 >= 0`. -/
theorem next_offset_ge_requested_on_success_witness :
    ((NewRingBuffer 2 0).Write ⟨0⟩).Read ((NewRingBuffer 2 0).Write ⟨0⟩) false 0 =
      some ⟨1, [some ⟨0⟩], none⟩ ∧
    (0 : Int) ≤ (⟨1, [some ⟨0⟩], none⟩ : ReadResult).next :=
  ⟨by decide,
   next_offset_ge_requested_on_success ((NewRingBuffer 2 0).Write ⟨0⟩)
     ((NewRingBuffer 2 0).Write ⟨0⟩) false 0 ⟨1, [some ⟨0⟩], none⟩ (by decide) (by decide)⟩

/-- Claim C2, counterexample: with a buffer freshly created at start offset
`5` (window `A = B = 5`), `Read(3)` returns next offset `3` — the requested
start, not the window start `A = 5` — together with the fell-behind error
and no items.  The claim asserts the next offset is `A`. -/
theorem read_before_window_returns_requested_not_window_start :
    (NewRingBuffer 2 5).start = 5 ∧
    (NewRingBuffer 2 5).Read (NewRingBuffer 2 5) false 3 = some ⟨3, [], some .ErrBeforeBuffer⟩ ∧
    ((NewRingBuffer 2 5).Read (NewRingBuffer 2 5) false 3).map ReadResult.next ≠
      some (NewRingBuffer 2 5).start := by
  refine ⟨rfl, rfl, by decide⟩

/-- Claim C2, amended: for every `Read(requestedStart)` with
`requestedStart` below the window start at call time, `Read` returns the
original `requestedStart` (not the window start) as the next offset,
together with a fell-behind error (`ErrBeforeBuffer`) and no items. -/
theorem read_before_window_start_returns_requested_with_fell_behind
    (rb rbPost : RingBuffer) (ctxErr : Bool) (start : Int) (h : start < rb.start) :
    rb.Read rbPost ctxErr start = some ⟨start, [], some .ErrBeforeBuffer⟩ := by
  unfold RingBuffer.Read RingBuffer.endOffset
  rw [if_pos h]

/-- Witness for the amended C2 at a concrete input: buffer at start `5`,
`Read(3)` (even with a cancelled context) returns `(3, no items,
ErrBeforeBuffer)`. -/
theorem read_before_window_start_returns_requested_with_fell_behind_witness :
    (3 : Int) < (NewRingBuffer 2 5).start ∧
    (NewRingBuffer 2 5).Read (NewRingBuffer 2 5) true 3 = some ⟨3, [], some .ErrBeforeBuffer⟩ :=
  ⟨by decide,
   read_before_window_start_returns_requested_with_fell_behind
     (NewRingBuffer 2 5) (NewRingBuffer 2 5) true 3 (by decide)⟩

/-- Claim C10: if the context is already cancelled when `Read` is called
and the window satisfies `A <= requestedStart < B` (items available, no
blocking), `Read` still returns the original `requestedStart` with the
context error and no items: the cancellation check runs on the
non-blocking path too and wins over available data. -/
theorem cancelled_context_wins_on_nonblocking_read (rb rbPost : RingBuffer) (start : Int)
    (hlo : rb.start ≤ start) (hhi : start < rb.end_) :
    rb.Read rbPost true start = some ⟨start, [], some .CtxCancelled⟩ := by
  unfold RingBuffer.Read
  have he : rb.endOffset rbPost start = .immediate rb.end_ := by
    unfold RingBuffer.endOffset
    rw [if_neg (not_lt.mpr hlo), if_pos hhi]
  rw [he]
  rfl

/-- Witness for C10 at a concrete input: buffer of size 2 holding one item
at offset 0 (window `[0,1)`), cancelled context, `Read(0)` returns
`(0, no items, CtxCancelled)` instead of the available item. -/
theorem cancelled_context_wins_on_nonblocking_read_witness :
    ((NewRingBuffer 2 0).Write ⟨0⟩).start ≤ 0 ∧
    (0 : Int) < ((NewRingBuffer 2 0).Write ⟨0⟩).end_ ∧
    ((NewRingBuffer 2 0).Write ⟨0⟩).Read ((NewRingBuffer 2 0).Write ⟨0⟩) true 0 =
      some ⟨0, [], some .CtxCancelled⟩ :=
  ⟨by decide, by decide,
   cancelled_context_wins_on_nonblocking_read ((NewRingBuffer 2 0).Write ⟨0⟩)
     ((NewRingBuffer 2 0).Write ⟨0⟩) 0 (by decide) (by decide)⟩

/-- Claim C1 (code evaluation at the failing input): a size-2 buffer at
window `[0,0)` blocks `Read(0)`; a `Reset(5)` followed by `Write(id 5)`
wakes it with post-wake window `[5,6)`, so `requestedStart = 0 < C = 5`.
The code does not re-evaluate the decision table after the wake: it
returns next offset `6` (`D`, not `C`), six slot values — alternating nil
and the stale copy of item 5 — and no error, instead of the fell-behind
error with no items the claim requires. -/
theorem blocked_read_after_reset_returns_stale_slots_no_error :
    (NewRingBuffer 2 0).blocksOn 0 = true ∧
    (NewRingBuffer 2 0).Read (((NewRingBuffer 2 0).Reset 5).Write ⟨5⟩) false 0 =
      some ⟨6, [none, some ⟨5⟩, none, some ⟨5⟩, none, some ⟨5⟩], none⟩ := by
  refine ⟨rfl, rfl⟩

/-- Claim C3 (code evaluation at the failing input): size-2 buffer,
`Write(id 0)` gives window `[0,1)`; `Read(1)` blocks; `Reset(4)` wakes it
with window `[4,4)`.  The code then copies out offsets `1..3`, returning
two never-written nil slots and a stale item — none of which occupy a
valid position `start <= i < end` of the post-wake (or any) window — with
no error. -/
theorem blocked_read_after_reset_returns_nil_slots :
    ((NewRingBuffer 2 0).Write ⟨0⟩).blocksOn 1 = true ∧
    ((NewRingBuffer 2 0).Write ⟨0⟩).Read (((NewRingBuffer 2 0).Write ⟨0⟩).Reset 4) false 1 =
      some ⟨4, [none, some ⟨0⟩, none], none⟩ ∧
    none ∈ ((((NewRingBuffer 2 0).Write ⟨0⟩).Read
      (((NewRingBuffer 2 0).Write ⟨0⟩).Reset 4) false 1).getD ⟨0, [], none⟩).items := by
  refine ⟨rfl, rfl, by decide⟩

/-- Claim C5 (code evaluation at the failing input): buffer created at
start `5` (window `[5,5)`), `Read(5)` blocks; `Reset(2)` wakes it with
post-wake window `[2,2)`, so `requestedStart = 5 > D = 2`.  The post-wake
branch of `endOffset` returns the new `end` unconditionally and with no
error, so control reaches `make([]*Item, 0, end-start)` with capacity
`2 - 5 = -3`: the code panics at run time and never returns — it neither
produces the too-far-ahead error the claim requires nor any other value. -/
theorem blocked_read_woken_below_requested_panics :
    (NewRingBuffer 2 5).blocksOn 5 = true ∧
    (NewRingBuffer 2 5).Read ((NewRingBuffer 2 5).Reset 2) false 5 = none := by
  refine ⟨rfl, rfl⟩

/-- Claim C6, counterexample: with window `[0,1)` (one item written),
`requestedStart = 1` satisfies `A <= requestedStart <= B` yet `Read`
blocks — `endOffset` takes the `start == rb.end` branch and calls
`Wait()` — contradicting the claim that no `requestedStart <= B` ever
blocks. -/
theorem read_at_window_end_blocks :
    ((NewRingBuffer 2 0).Write ⟨0⟩).start ≤ 1 ∧
    (1 : Int) ≤ ((NewRingBuffer 2 0).Write ⟨0⟩).end_ ∧
    ((NewRingBuffer 2 0).Write ⟨0⟩).blocksOn 1 = true := by
  refine ⟨by decide, by decide, rfl⟩

/-- Claim C6, amended: for every `Read(requestedStart)` with window
`[A, B)` at call time, `A <= requestedStart < B` (strictly below `B`;
`requestedStart = B` blocks) and no pending cancellation, `Read` does not
block and returns next offset `B`, no error, and exactly the items at
offsets `[requestedStart, B)`; when those slots hold items whose
identifier equals their offset (as every run of the sequencer produces),
the returned items are pairwise in ascending identifier order. -/
theorem read_within_window_returns_window_items (rb rbPost : RingBuffer) (start : Int)
    (hlo : rb.start ≤ start) (hhi : start < rb.end_)
    (hids : ∀ i : Int, rb.start ≤ i → i < rb.end_ → rb.slot i = some ⟨i⟩) :
    rb.blocksOn start = false ∧
    rb.Read rbPost false start =
      some ⟨rb.end_,
        (List.range (rb.end_ - start).toNat).map (fun k : Nat => some ⟨start + (k : Int)⟩),
        none⟩ ∧
    List.Pairwise (fun a b : Option Item => ∀ x ∈ a, ∀ y ∈ b, x.Id < y.Id)
      ((rb.Read rbPost false start).getD ⟨0, [], none⟩).items := by
  have hb : rb.blocksOn start = false := by
    unfold RingBuffer.blocksOn
    rw [if_neg (not_lt.mpr hlo), if_pos hhi]
  have he : rb.endOffset rbPost start = .immediate rb.end_ := by
    unfold RingBuffer.endOffset
    rw [if_neg (not_lt.mpr hlo), if_pos hhi]
  have hr : rb.Read rbPost false start =
      some ⟨rb.end_,
        (List.range (rb.end_ - start).toNat).map (fun k : Nat => some ⟨start + (k : Int)⟩),
        none⟩ := by
    unfold RingBuffer.Read
    rw [he]
    show (if rb.end_ - start < 0 then none
      else some ⟨(readLoop rb start rb.end_).1, (readLoop rb start rb.end_).2, none⟩ :
        Option ReadResult) = _
    rw [if_neg (by omega), readLoop_fst, readLoop_snd]
    have hcast : ((rb.end_ - start).toNat : Int) = rb.end_ - start := by omega
    simp only [Option.some.injEq, ReadResult.mk.injEq]
    refine ⟨by omega, ?_, trivial⟩
    apply List.map_congr_left
    intro k hk
    rw [List.mem_range] at hk
    have hk' : (k : Int) < rb.end_ - start := by omega
    exact hids (start + k) (by omega) (by omega)
  refine ⟨hb, hr, ?_⟩
  rw [hr]
  simp only [Option.getD_some]
  rw [List.pairwise_map]
  apply List.Pairwise.imp ?_ (List.pairwise_lt_range _)
  intro a b hab
  intro x hx y hy
  rw [Option.mem_def, Option.some_inj] at hx hy
  subst hx
  subst hy
  dsimp only
  omega

/-- Witness for the amended C6 at a concrete input: size-2 buffer holding
item 0 (window `[0,1)`), `Read(0)` does not block and returns
`(1, [item 0], no error)`. -/
theorem read_within_window_returns_window_items_witness :
    ((NewRingBuffer 2 0).Write ⟨0⟩).blocksOn 0 = false ∧
    ((NewRingBuffer 2 0).Write ⟨0⟩).Read ((NewRingBuffer 2 0).Write ⟨0⟩) false 0 =
      some ⟨1, [some ⟨0⟩], none⟩ := by
  have h := read_within_window_returns_window_items
    ((NewRingBuffer 2 0).Write ⟨0⟩) ((NewRingBuffer 2 0).Write ⟨0⟩) 0
    (by decide) (by decide)
    (by
      intro i h1 h2
      have e1 : ((NewRingBuffer 2 0).Write ⟨0⟩).start = 0 := rfl
      have e2 : ((NewRingBuffer 2 0).Write ⟨0⟩).end_ = 1 := rfl
      rw [e1] at h1
      rw [e2] at h2
      have hi : i = 0 := by omega
      subst hi
      rfl)
  exact ⟨h.1, h.2.1.trans (by decide)⟩

/-- Claim C4, counterexample: the very first item received after startup
with id `0` is NOT treated as a gap: since `lastId` starts at `-1`,
`item.Id == lastId + 1` holds and the sequencer calls `Write` alone — the
reset log stays empty — contradicting the claim that every first item
(including id 0) forces a `Reset`. -/
theorem sequencer_first_item_zero_writes_without_reset :
    writeItemsStep (initSeqState (NewRingBuffer 10 0)) ⟨0⟩ =
      { lastId := 0, rb := (NewRingBuffer 10 0).Write ⟨0⟩, resets := [] } := by
  decide

/-- Claim C4, amended: for every first item `i` with `i.Id ≠ 0`, the
sequencer treats it as a gap — `Reset(i.Id)`, then `Write(i)`, then
`lastId = i.Id` — but a first item with id `0` matches `lastId + 1 = 0`
(the `lastId = -1` initialization) and is written without a Reset. -/
theorem sequencer_first_item_nonzero_resets_then_writes (rb : RingBuffer) (i : Item)
    (h : i.Id ≠ 0) :
    writeItemsStep (initSeqState rb) i =
      { lastId := i.Id, rb := (rb.Reset i.Id).Write i, resets := [i.Id] } := by
  simp only [writeItemsStep, initSeqState]
  rw [if_neg (by omega)]
  simp

/-- Witness for the amended C4 at a concrete input: first item id `7`
resets the buffer to `7`, writes the item, and logs exactly one reset. -/
theorem sequencer_first_item_nonzero_resets_then_writes_witness :
    (7 : Int) ≠ 0 ∧
    writeItemsStep (initSeqState (NewRingBuffer 10 0)) ⟨7⟩ =
      { lastId := 7, rb := ((NewRingBuffer 10 0).Reset 7).Write ⟨7⟩, resets := [7] } :=
  ⟨by decide,
   sequencer_first_item_nonzero_resets_then_writes (NewRingBuffer 10 0) ⟨7⟩ (by decide)⟩

/-- Claim C9: from the initial sequencer state (the pgnotifier main uses a
size-10 buffer at offset 0), feeding ids `0,1,2,4,5` logs exactly one
`Reset`, with argument `4`; feeding `0,1,2,3` logs none.  `WriteItems`
never calls `Read`, so no fell-behind error can be surfaced internally. -/
theorem sequencer_gap_resets_exactly_once :
    (writeItems (initSeqState (NewRingBuffer 10 0)) [⟨0⟩, ⟨1⟩, ⟨2⟩, ⟨4⟩, ⟨5⟩]).resets = [4] ∧
    (writeItems (initSeqState (NewRingBuffer 10 0)) [⟨0⟩, ⟨1⟩, ⟨2⟩, ⟨3⟩]).resets = [] := by
  refine ⟨rfl, rfl⟩
